import Mathlib

/-!
Verification development for the happy-cli droid/opencode backend drivers.

This file gives a shallow embedding of the pure logic of the repository's
two agent backends (the process-exec "droid" variant and the server-stream
"opencode" variant) and of the shared driver loop helpers, and proves or
refutes the frozen behavioural claims about them.

Conventions of the embedding:
  * JS strings that are scanned character by character (the stdout stream
    buffers, model identifiers) are represented as `List Char`; strings that
    are only carried around opaquely (prompts, ids, arguments) stay `String`.
  * Async callbacks are modelled by explicit state-passing step functions;
    the emitted status/message events of a step are returned as a list,
    in emission order.
  * `JSON.parse` is abstracted by a parameter `parse : List Char → Option α`
    (the claims under study are about the line-buffering and error-skipping
    logic, which is parametric in the record parser).
-/

namespace HappyCli

/-- Canonical status values carried by `{ type: 'status', status: ... }`
agent messages (`AgentBackend` vocabulary used by both backends). -/
inductive AStatus where
  | starting
  | running
  | idle
  | stopped
  | error
deriving DecidableEq, Repr

/-- A status is terminal when it closes out an invocation:
`idle` (success), `stopped` (cancellation) or `error` (failure). -/
def AStatus.isTerminal : AStatus → Bool
  | .idle => true
  | .stopped => true
  | .error => true
  | _ => false

/-! ### Driver-loop readiness gate (runDroid / runOpencode `emitReadyIfIdle`) -/

/-- Session events sent by `sendReady` (a `{type:'ready'}` session event
plus a push notification; we record the ready announcement itself). -/
inductive SessionEvent where
  | ready
deriving DecidableEq, Repr

/-- `emitReadyIfIdle` from `runDroid` (src/unnamed/part_000 lines 220-227)
and `runOpencode` (lines 240-247); the two are textually identical.
Returns the list of ready announcements sent (via `sendReady`) and the
boolean the function returns.  `sendReady()` is invoked exactly on the
path that returns `true`. -/
def emitReadyIfIdle (shouldExit thinking isResponseInProgress : Bool)
    (queueSize : Nat) : List SessionEvent × Bool :=
  if shouldExit then ([], false)
  else if thinking then ([], false)
  else if isResponseInProgress then ([], false)
  else if queueSize > 0 then ([], false)
  else ([SessionEvent.ready], true)

/-! ### Driver-loop status handler (the `case 'status':` branch of the
`onMessage` handler installed by runDroid / runOpencode) -/

/-- Messages the driver sends to the session from the status handler
(`session.sendCodexMessage` payloads; `message` carries the text body). -/
inductive SessionOut where
  | taskStarted
  | taskComplete
  | turnAborted
  | message (text : String)
deriving DecidableEq, Repr

/-- Driver-local mutable state read and written by the status handler. -/
structure DriverState where
  thinking : Bool
  accumulatedResponse : String
  isResponseInProgress : Bool
deriving DecidableEq, Repr

/-- `msg.detail || 'Unknown error'` — JS `||` treats the empty string as
falsy, so an empty detail also falls back to the default text. -/
def errDetailText (detail : Option String) : String :=
  match detail with
  | some d => if d = "" then "Unknown error" else d
  | none => "Unknown error"

/-- The `case 'status':` branch of the driver's `onMessage` handler,
identical in `runDroid` (part_000 lines 361-400) and `runOpencode`
(runOpencode.ts lines 382-421):
  * `running`: set `thinking`, send `task_started`;
  * `idle`/`stopped`: clear `thinking`; if a response is in progress and the
    accumulated text is non-blank, send it as a final `message` plus
    `task_complete` and reset the accumulator;
  * `error`: clear `thinking`, send `turn_aborted` and an explicit
    `Error: ...` message, and reset the accumulator without forwarding it;
  * `starting`: no branch in the source switch, so no effect. -/
def handleStatus (st : DriverState) (status : AStatus) (detail : Option String) :
    DriverState × List SessionOut :=
  match status with
  | .running => ({ st with thinking := true }, [SessionOut.taskStarted])
  | .idle | .stopped =>
      if st.isResponseInProgress ∧ st.accumulatedResponse.trim ≠ "" then
        (⟨false, "", false⟩,
         [SessionOut.message st.accumulatedResponse, SessionOut.taskComplete])
      else
        ({ st with thinking := false }, [])
  | .error =>
      (⟨false, "", false⟩,
       [SessionOut.turnAborted,
        SessionOut.message ("Error: " ++ errDetailText detail)])
  | .starting => (st, [])

/-! ### Permission modes and the permission-request handler -/

/-- The four permission modes (`DroidPermissionMode` /
`OpencodePermissionMode`, identical string unions in types.ts). -/
inductive PermissionMode where
  | default
  | readOnly
  | safeYolo
  | yolo
deriving DecidableEq, Repr

/-- Action taken by the `case 'permission-request':` branch of the
runOpencode `onMessage` handler (runOpencode.ts lines 441-456): either the
request is auto-resolved by calling `respondToPermission(id, true)` on the
backend, or it is forwarded upstream as a `permission-request` codex
message. -/
inductive PermAction where
  | respondToPermission (id : String) (approved : Bool)
  | forwardPermissionRequest (id : String)
deriving DecidableEq, Repr

/-- The permission-request branch: auto-approve for `yolo` and `safe-yolo`,
forward upstream for the other two modes. -/
def handlePermissionRequest (currentPermissionMode : PermissionMode)
    (id : String) : PermAction :=
  if currentPermissionMode = PermissionMode.yolo ∨
      currentPermissionMode = PermissionMode.safeYolo then
    PermAction.respondToPermission id true
  else
    PermAction.forwardPermissionRequest id

/-! ### DroidBackend / DroidClient invocation state machine

`DroidBackend.sendPrompt` (droidBackend.ts lines 92-124) emits a `running`
status, spawns a `droid exec` subprocess through `DroidClient.execStream`
and awaits its promise; the promise is resolved (exit code 0) or rejected
(non-zero exit or spawn error) by the process close handler, after which
`sendPrompt` emits `idle` or `error`.  `DroidBackend.cancel` (lines
126-132) calls `DroidClient.cancel` (droidClient.ts lines 177-185): if a
live process handle exists it is SIGTERMed and cleared and a `stopped`
status is emitted, otherwise nothing happens. -/

/-- The observable state shared by `DroidBackend` and its `DroidClient`:
whether `DroidClient.currentProcess` is non-null, whether an `execStream`
promise is still pending inside `sendPrompt`, and `DroidBackend.isRunning`. -/
structure DroidBState where
  currentProcess : Bool
  promisePending : Bool
  isRunning : Bool
deriving DecidableEq, Repr

/-- Initial state of a freshly constructed backend. -/
def droidInit : DroidBState := ⟨false, false, false⟩

/-- Events driving the droid invocation state machine:
`sendPromptStart` is the synchronous prefix of `sendPrompt` (emit
`running`, spawn the process); `cancel` is `DroidBackend.cancel`;
`processClose code` is the subprocess `close` event (code `none` models a
null exit code, e.g. death by signal), which settles the pending
`execStream` promise and runs `sendPrompt`'s continuation. -/
inductive DroidAction where
  | sendPromptStart
  | cancel
  | processClose (exitCode : Option Int)
deriving DecidableEq, Repr

/-- One step of the droid backend.  Returns the next state and the status
events emitted during the step, in order. -/
def droidStep (st : DroidBState) (a : DroidAction) : DroidBState × List AStatus :=
  match a with
  | .sendPromptStart =>
      -- sendPrompt: emit running, isRunning := true; execStream spawns and
      -- stores the process handle and creates the pending promise.
      (⟨true, true, true⟩, [AStatus.running])
  | .cancel =>
      -- DroidClient.cancel kills and clears the handle iff one exists;
      -- DroidBackend.cancel emits stopped only when that returned true.
      if st.currentProcess then
        ({ st with currentProcess := false, isRunning := false },
         [AStatus.stopped])
      else (st, [])
  | .processClose code =>
      -- execStream close handler: clear the handle, settle the promise;
      -- sendPrompt then emits idle (code 0) or error (otherwise).
      if st.promisePending then
        if code = some 0 then
          (⟨false, false, false⟩, [AStatus.idle])
        else
          (⟨false, false, false⟩, [AStatus.error])
      else (st, [])

/-- Run a sequence of droid actions from a state, concatenating the
emitted status events. -/
def droidRun (st : DroidBState) : List DroidAction → DroidBState × List AStatus
  | [] => (st, [])
  | a :: rest =>
      let s1 := droidStep st a
      let s2 := droidRun s1.1 rest
      (s2.1, s1.2 ++ s2.2)

/-! ### OpencodeBackend cancel -/

/-- Observable state of `OpencodeBackend` relevant to `cancel`
(opencodeBackend section of runOpencode.ts, lines 621-627). -/
structure OpencodeBState where
  opencodeSessionId : Option String
  isRunning : Bool
deriving DecidableEq, Repr

/-- `OpencodeBackend.cancel`: if a server session exists, call the remote
abort endpoint; then unconditionally clear `isRunning` and emit a
`stopped` status.  Returns (new state, emitted statuses, whether
`client.abortSession` was called). -/
def opencodeCancel (st : OpencodeBState) : OpencodeBState × List AStatus × Bool :=
  (⟨st.opencodeSessionId, false⟩, [AStatus.stopped], st.opencodeSessionId.isSome)

/-! ### DroidClient.buildArgs and the execStream spawn call -/

/-- `DroidAutoLevel` — the `--auto` autonomy levels. -/
inductive DroidAutoLevel where
  | low
  | medium
  | high
deriving DecidableEq, Repr

/-- The string value pushed after `--auto` for each level. -/
def autoLevelString : DroidAutoLevel → String
  | .low => "low"
  | .medium => "medium"
  | .high => "high"

/-- `permissionModeToAutoLevel` (types.ts lines 489-501): `default` and
`read-only` map to `undefined` (flag omitted), `safe-yolo` to `low`,
`yolo` to `high`. -/
def permissionModeToAutoLevel : PermissionMode → Option DroidAutoLevel
  | .default => none
  | .readOnly => none
  | .safeYolo => some DroidAutoLevel.low
  | .yolo => some DroidAutoLevel.high

/-- `DroidExecOptions` (types.ts lines 367-378), restricted to the fields
`buildArgs` reads. -/
structure DroidExecOptions where
  outputFormat : Option String
  inputFormat : Option String
  auto : Option DroidAutoLevel
  sessionId : Option String
  model : Option String
  useSpec : Bool
  specModel : Option String
  enabledTools : List String
  file : Option String
deriving DecidableEq, Repr

/-- `DroidClient.buildArgs` (droidClient.ts lines 190-237), with
`this.defaultModel` passed explicitly.  Reproduces the exact argument
order of the source: `exec`, `-o` format, `--input-format?`, `--auto?`,
`-s?`, `-m`, spec flags, `--enabled-tools?`, then `-f file` or the prompt. -/
def buildArgs (defaultModel : String) (prompt : String)
    (o : DroidExecOptions) : List String :=
  ["exec", "-o", o.outputFormat.getD "json"]
  ++ (match o.inputFormat with
      | some f => ["--input-format", f]
      | none => [])
  ++ (match o.auto with
      | some a => ["--auto", autoLevelString a]
      | none => [])
  ++ (match o.sessionId with
      | some s => ["-s", s]
      | none => [])
  ++ ["-m", o.model.getD defaultModel]
  ++ (if o.useSpec then
        ["--use-spec"]
        ++ (match o.specModel with
            | some sm => ["--spec-model", sm]
            | none => [])
      else [])
  ++ (match o.enabledTools with
      | [] => []
      | ts => ["--enabled-tools", String.intercalate "," ts])
  ++ (match o.file with
      | some f => ["-f", f]
      | none => [prompt])

/-- A recorded `spawn` call: command, argument vector, and the environment
entries added on top of the inherited `process.env`. -/
structure SpawnCall where
  cmd : String
  args : List String
  extraEnv : List (String × String)
deriving DecidableEq, Repr

/-- The `FACTORY_API_KEY` environment variable name (droid constants;
the name is shown verbatim in runDroid's error text, part_000 line 70). -/
def factoryApiKeyEnv : String := "FACTORY_API_KEY"

/-- The spawn call performed by `DroidClient.execStream` (droidClient.ts
lines 98-113): arguments from `buildArgs` with `outputFormat` forced to
`'stream-json'`, and the API key added to the child environment only. -/
def execStreamSpawn (apiKey defaultModel prompt : String)
    (o : DroidExecOptions) : SpawnCall :=
  { cmd := "droid",
    args := buildArgs defaultModel prompt { o with outputFormat := some "stream-json" },
    extraEnv := [(factoryApiKeyEnv, apiKey)] }

/-- The options object built by `DroidBackend.sendPrompt` (droidBackend.ts
lines 97-104): only `auto` (the backend's current autonomy level) and,
when a droid session is being continued, `sessionId` are set. -/
def sendPromptOptions (auto : Option DroidAutoLevel)
    (droidSessionId : Option String) : DroidExecOptions :=
  { outputFormat := none, inputFormat := none, auto := auto,
    sessionId := droidSessionId, model := none, useSpec := false,
    specModel := none, enabledTools := [], file := none }

/-- The spawn call of one `DroidBackend.sendPrompt` invocation. -/
def droidSendPromptSpawn (apiKey defaultModel prompt : String)
    (auto : Option DroidAutoLevel) (droidSessionId : Option String) : SpawnCall :=
  execStreamSpawn apiKey defaultModel prompt (sendPromptOptions auto droidSessionId)

/-! ### isAvailable / getVersion probe timing model -/

/-- Fate of the spawned `droid --version` process: it closes with an exit
code at some time, the spawn itself errors at some time, or it never
settles at all. -/
inductive ProcOutcome where
  | closes (exitCode : Option Int) (atMs : Nat)
  | spawnError (atMs : Nat)
  | neverSettles
deriving DecidableEq, Repr

/-- `DroidClient.isAvailable` (droidClient.ts lines 242-257): the promise
is resolved by whichever fires first of the `close` handler
(`resolve(code === 0)`), the `error` handler (`resolve(false)`), and a
5000 ms timer that kills the process and resolves `false`; later calls to
`resolve` are no-ops.  Returns (resolved value, resolution time in ms). -/
def isAvailableRun (o : ProcOutcome) : Bool × Nat :=
  match o with
  | .closes code t => if t < 5000 then (decide (code = some 0), t) else (false, 5000)
  | .spawnError t => if t < 5000 then (false, t) else (false, 5000)
  | .neverSettles => (false, 5000)

/-- Strip leading and trailing whitespace, modelling JS `String.trim`. -/
def trimChars (l : List Char) : List Char :=
  ((l.dropWhile Char.isWhitespace).reverse.dropWhile Char.isWhitespace).reverse

/-- `DroidClient.getVersion` (droidClient.ts lines 262-282): resolves
`stdout.trim()` on a clean exit, `null` on a non-zero exit or spawn
error.  There is no timer: if the process never settles, the promise
never resolves, which we model as `none`. -/
def getVersionRun (stdout : List Char) (o : ProcOutcome) :
    Option (Option (List Char) × Nat) :=
  match o with
  | .closes code t =>
      some (if code = some 0 then some (trimChars stdout) else none, t)
  | .spawnError t => some (none, t)
  | .neverSettles => none

/-! ### Handler fan-out (`emit`) -/

/-- Outcome of running a JS callback: normal return or a thrown exception
carrying a message. -/
inductive HOutcome (α : Type) where
  | ok (a : α)
  | thrown (e : String)
deriving DecidableEq, Repr

/-- Exception-propagating sequencing: a thrown left-hand side aborts the
continuation, as in JS. -/
def bindH {α β : Type} : HOutcome α → (α → HOutcome β) → HOutcome β
  | .ok a, f => f a
  | .thrown e, _ => .thrown e

/-- The `try { handler(message) } catch (e) { logger.debug(...) }` body of
the emit loop: a thrown exception is caught and turned into a log entry,
never re-thrown. -/
def tryLog : HOutcome Unit → HOutcome (Option String)
  | .ok _ => .ok none
  | .thrown e => .ok (some e)

/-- What the catch block logs for one handler invocation. -/
def caughtLog : HOutcome Unit → Option String
  | .ok _ => none
  | .thrown e => some e

/-- `DroidBackend.emit` / `OpencodeBackend.emit` (droidBackend.ts lines
309-317, runOpencode.ts backend lines 879-887): iterate over the handler
list in order, invoking each on the message inside a try/catch.  The
result collects, per handler, what was logged (`none` when the handler
returned normally); a `thrown` result would mean an exception escaped the
loop. -/
def emitHandlers {M : Type} (msg : M) :
    List (M → HOutcome Unit) → HOutcome (List (Option String))
  | [] => .ok []
  | h :: rest =>
      bindH (tryLog (h msg)) (fun log =>
        bindH (emitHandlers msg rest) (fun logs => .ok (log :: logs)))

/-! ### Separator splitting, modelling JS `String.split(sep)` for a
single-character separator (used with `'\n'` by the stream readers and
with `'/'` by `parseModelString`). -/

/-- Prepend a character to the first piece of a split result. -/
def consHead (c : Char) : List (List Char) → List (List Char)
  | [] => [[c]]
  | l :: ls => (c :: l) :: ls

/-- `s.split(sep)` for one-character separators: JS semantics, so the
result is never empty and splitting the empty string gives `[""]`. -/
def splitOnSep (sep : Char) : List Char → List (List Char)
  | [] => [[]]
  | c :: rest =>
      if c = sep then [] :: splitOnSep sep rest
      else consHead c (splitOnSep sep rest)

/-- Prepend a prefix onto the first piece of a split result (used to state
how splitting distributes over concatenation). -/
def consHeadList (p : List Char) : List (List Char) → List (List Char)
  | [] => [p]
  | l :: ls => (p ++ l) :: ls

/-- Rejoin the pieces of a split with the separator, the inverse direction
of `splitOnSep`. -/
def joinSep (sep : Char) : List (List Char) → List Char
  | [] => []
  | [l] => l
  | l :: ls => l ++ sep :: joinSep sep ls

/-! ### The execStream stdout reader -/

/-- State of the `execStream` stream reader across `data` callbacks
(droidClient.ts lines 114-116): the unterminated-line buffer and the
`finalText` captured from `completion` records so far. -/
structure ExecStreamState where
  buffer : List Char
  finalText : List Char
deriving DecidableEq, Repr

/-- Fold the `if (event.type === 'completion') finalText = event.finalText`
update over a batch of parsed events; `finalTextOf` extracts the final
text of a completion record and is `none` for every other record. -/
def updFinal {α : Type} (finalTextOf : α → Option (List Char))
    (ft : List Char) (evs : List α) : List Char :=
  evs.foldl (fun f e => (finalTextOf e).getD f) ft

/-- The per-line body of the `data` handler: lines whose `trim()` is empty
are skipped, and a line that fails to parse is skipped (logged) without
affecting the others. -/
def lineEvents {α : Type} (parse : List Char → Option α)
    (lines : List (List Char)) : List α :=
  lines.filterMap (fun l => if l.all Char.isWhitespace then none else parse l)

/-- The `droid.stdout.on('data')` handler of `execStream` (droidClient.ts
lines 118-137): append the chunk to the buffer, split on `'\n'`, keep the
trailing (unterminated) piece as the new buffer, and parse each complete
line, emitting the events in order. -/
def onStdoutData {α : Type} (parse : List Char → Option α)
    (finalTextOf : α → Option (List Char))
    (st : ExecStreamState) (data : List Char) : ExecStreamState × List α :=
  let lines := splitOnSep '\n' (st.buffer ++ data)
  let evs := lineEvents parse lines.dropLast
  (⟨lines.getLastD [], updFinal finalTextOf st.finalText evs⟩, evs)

/-- The `droid.on('close')` handler of `execStream` (droidClient.ts lines
144-165): attempt the still-pending trailing fragment once more (skipped
when blank, silently dropped when unparsable), then resolve with the
final text on exit code 0 and reject with the captured stderr otherwise.
Returns the settled promise (`Except` error value carries stderr) and the
events emitted from the trailing fragment. -/
def onProcessClose {α : Type} (parse : List Char → Option α)
    (finalTextOf : α → Option (List Char))
    (st : ExecStreamState) (code : Option Int) (stderr : List Char) :
    Except (List Char) (List Char) × List α :=
  let evs : List α :=
    if st.buffer.all Char.isWhitespace then []
    else (parse st.buffer).toList
  let ft := updFinal finalTextOf st.finalText evs
  (if code = some 0 then Except.ok ft else Except.error stderr, evs)

/-! ### parseModelString / formatModelString -/

/-- `OpencodeModel` (types.ts lines 563-566). -/
structure OpencodeModel where
  providerID : List Char
  modelID : List Char
deriving DecidableEq, Repr

/-- `parseModelString` (types.ts lines 696-705): split on `'/'`; a result
of exactly two pieces yields `{providerID, modelID}`, anything else yields
null. -/
def parseModelString (model : List Char) : Option OpencodeModel :=
  let parts := splitOnSep '/' model
  if parts.length ≠ 2 then none
  else some ⟨parts.getD 0 [], parts.getD 1 []⟩

/-- `formatModelString` (types.ts lines 710-712):
`providerID + '/' + modelID`. -/
def formatModelString (m : OpencodeModel) : List Char :=
  m.providerID ++ '/' :: m.modelID

/-! ## Helper lemmas about the splitting functions -/

theorem consHead_ne_nil (c : Char) (L : List (List Char)) : consHead c L ≠ [] := by
  cases L <;> simp [consHead]

theorem consHeadList_ne_nil (p : List Char) (L : List (List Char)) :
    consHeadList p L ≠ [] := by
  cases L <;> simp [consHeadList]

theorem splitOnSep_ne_nil (sep : Char) (s : List Char) : splitOnSep sep s ≠ [] := by
  induction s with
  | nil => simp [splitOnSep]
  | cons c rest ih =>
      by_cases h : c = sep
      · simp [splitOnSep, h]
      · simpa [splitOnSep, h] using consHead_ne_nil c (splitOnSep sep rest)

theorem consHead_consHeadList (c : Char) (p : List Char) (L : List (List Char)) :
    consHead c (consHeadList p L) = consHeadList (c :: p) L := by
  cases L <;> simp [consHead, consHeadList]

/-- `getLastD` ignores its default on a non-empty list. -/
theorem getLastD_indep {α : Type} (d1 d2 : α) (L : List α) (h : L ≠ []) :
    L.getLastD d1 = L.getLastD d2 := by
  cases L with
  | nil => exact absurd rfl h
  | cons x t => rw [List.getLastD_cons, List.getLastD_cons]

theorem getLastD_append {α : Type} (d : α) (X Y : List α) (h : Y ≠ []) :
    (X ++ Y).getLastD d = Y.getLastD d := by
  induction X with
  | nil => rfl
  | cons x xs ih =>
      have hne : xs ++ Y ≠ [] := by
        intro hc
        exact h (List.append_eq_nil.mp hc).2
      calc ((x :: xs) ++ Y).getLastD d = (xs ++ Y).getLastD x := by
            rw [List.cons_append, List.getLastD_cons]
        _ = (xs ++ Y).getLastD d := getLastD_indep x d _ hne
        _ = Y.getLastD d := ih

/-- How splitting distributes over concatenation: the last piece of the
left half merges with the first piece of the right half. -/
theorem splitOnSep_append (sep : Char) (a b : List Char) :
    splitOnSep sep (a ++ b) =
      (splitOnSep sep a).dropLast
        ++ consHeadList ((splitOnSep sep a).getLastD []) (splitOnSep sep b) := by
  induction a with
  | nil =>
      cases hb : splitOnSep sep b with
      | nil => exact absurd hb (splitOnSep_ne_nil sep b)
      | cons l ls => simp [splitOnSep, consHeadList, hb]
  | cons c rest ih =>
      have hS := splitOnSep_ne_nil sep rest
      cases hSe : splitOnSep sep rest with
      | nil => exact absurd hSe hS
      | cons l ls =>
          rw [hSe] at ih
          by_cases h : c = sep
          · subst h
            have hL : splitOnSep c (c :: (rest ++ b)) = [] :: splitOnSep c (rest ++ b) := by
              simp [splitOnSep]
            have hR : splitOnSep c (c :: rest) = [] :: (l :: ls) := by
              simp [splitOnSep, hSe]
            rw [List.cons_append, hL, ih, hR]
            simp [List.getLastD_cons]
          · have hL : splitOnSep sep (c :: (rest ++ b))
                = consHead c (splitOnSep sep (rest ++ b)) := by
              simp [splitOnSep, h]
            have hR : splitOnSep sep (c :: rest) = consHead c (l :: ls) := by
              simp [splitOnSep, h, hSe]
            rw [List.cons_append, hL, ih, hR]
            cases ls with
            | nil =>
                have e1 : ([l] : List (List Char)).dropLast = [] := rfl
                have e2 : ([l] : List (List Char)).getLastD [] = l := rfl
                have e3 : consHead c [l] = [c :: l] := rfl
                have e4 : ([c :: l] : List (List Char)).dropLast = [] := rfl
                have e5 : ([c :: l] : List (List Char)).getLastD [] = c :: l := rfl
                rw [e1, e2, e3, e4, e5, List.nil_append, List.nil_append,
                  consHead_consHeadList]
            | cons l2 ls2 =>
                simp [consHead, List.dropLast_cons₂, List.getLastD_cons]

/-- A separator-free string splits into a single piece. -/
theorem splitOnSep_of_not_mem (sep : Char) (s : List Char) (h : sep ∉ s) :
    splitOnSep sep s = [s] := by
  induction s with
  | nil => rfl
  | cons c rest ih =>
      have hc : ¬ c = sep := fun hh => h (hh ▸ List.mem_cons_self c rest)
      have hr : sep ∉ rest := fun hm => h (List.mem_cons_of_mem c hm)
      simp [splitOnSep, hc, ih hr, consHead]

/-- The trailing piece of a split never contains the separator. -/
theorem splitOnSep_getLastD_not_mem (sep : Char) (s : List Char) :
    sep ∉ (splitOnSep sep s).getLastD [] := by
  induction s with
  | nil => simp [splitOnSep]
  | cons c rest ih =>
      have hS := splitOnSep_ne_nil sep rest
      cases hSe : splitOnSep sep rest with
      | nil => exact absurd hSe hS
      | cons l ls =>
          rw [hSe] at ih
          by_cases h : c = sep
          · simpa [splitOnSep, h, hSe, List.getLastD_cons] using ih
          · cases ls with
            | nil =>
                simp only [List.getLastD_cons, List.getLastD_nil] at ih
                simp only [splitOnSep, h, if_false, hSe, consHead,
                  List.getLastD_cons, List.getLastD_nil]
                intro hmem
                rcases List.mem_cons.mp hmem with h1 | h2
                · exact h h1.symm
                · exact ih h2
            | cons l2 ls2 =>
                simpa [splitOnSep, h, hSe, consHead, List.getLastD_cons] using ih

/-- Splitting a string that is a separator-free piece, a separator, and a
remainder yields that piece followed by the split of the remainder. -/
theorem splitOnSep_piece (sep : Char) (a b : List Char) (h : sep ∉ a) :
    splitOnSep sep (a ++ sep :: b) = a :: splitOnSep sep b := by
  induction a with
  | nil => simp [splitOnSep]
  | cons c a2 ih =>
      have hc : ¬ c = sep := fun hh => h (hh ▸ List.mem_cons_self c a2)
      have ha : sep ∉ a2 := fun hm => h (List.mem_cons_of_mem c hm)
      simp [splitOnSep, hc, ih ha, consHead]

/-- The number of pieces is one more than the number of separators. -/
theorem splitOnSep_length (sep : Char) (s : List Char) :
    (splitOnSep sep s).length = s.count sep + 1 := by
  induction s with
  | nil => simp [splitOnSep]
  | cons c rest ih =>
      have hS := splitOnSep_ne_nil sep rest
      cases hSe : splitOnSep sep rest with
      | nil => exact absurd hSe hS
      | cons l ls =>
          rw [hSe] at ih
          by_cases h : c = sep
          · simp [splitOnSep, h, hSe, List.count_cons, ih]
          · simp [splitOnSep, h, hSe, consHead, List.count_cons] at ih ⊢
            omega

/-- The emit loop always returns normally, collecting the per-handler
catch log; helper shared by the fan-out theorems. -/
theorem emitHandlers_eq {M : Type} (msg : M)
    (handlers : List (M → HOutcome Unit)) :
    emitHandlers msg handlers
      = HOutcome.ok (handlers.map fun h => caughtLog (h msg)) := by
  induction handlers with
  | nil => rfl
  | cons h rest ih =>
      have ht : tryLog (h msg) = HOutcome.ok (caughtLog (h msg)) := by
        cases hh : h msg <;> rfl
      simp [emitHandlers, ht, bindH, ih]

/-- Rejoining the pieces with the separator recovers the original string. -/
theorem joinSep_splitOnSep (sep : Char) (s : List Char) :
    joinSep sep (splitOnSep sep s) = s := by
  induction s with
  | nil => rfl
  | cons c rest ih =>
      have hS := splitOnSep_ne_nil sep rest
      cases hSe : splitOnSep sep rest with
      | nil => exact absurd hSe hS
      | cons l ls =>
          rw [hSe] at ih
          by_cases h : c = sep
          · subst h
            simp [splitOnSep, hSe, joinSep, ih]
          · cases ls with
            | nil =>
                simp only [joinSep] at ih
                simp [splitOnSep, h, hSe, consHead, joinSep, ih]
            | cons l2 ls2 =>
                simp only [joinSep] at ih
                simp only [splitOnSep, h, if_false, hSe, consHead, joinSep]
                rw [← ih]
                simp

/-! ## Claim theorems -/

/-- C1, counterexample: when `cancel()` is called while a `sendPrompt`
invocation is in flight, the droid backend emits a `stopped` status from
`cancel` and then, when the SIGTERMed process closes with a non-zero
(null) exit code and the pending `execStream` promise rejects, a second
terminal `error` status from `sendPrompt`'s catch block — two terminal
statuses for one invocation, refuting "never more than one terminal
status for the same invocation, including when cancel() is called while
that invocation is in flight". -/
theorem c1_two_terminals_on_cancel :
    (droidRun droidInit
        [DroidAction.sendPromptStart, DroidAction.cancel,
         DroidAction.processClose none]).2
      = [AStatus.running, AStatus.stopped, AStatus.error]
  ∧ ((droidRun droidInit
        [DroidAction.sendPromptStart, DroidAction.cancel,
         DroidAction.processClose none]).2.filter AStatus.isTerminal).length = 2 := by
  exact ⟨rfl, rfl⟩

/-- C1, amended: a droid `sendPrompt` invocation during which `cancel()`
is not called emits exactly one terminal status (`idle` on exit code 0,
`error` otherwise); if `cancel()` is called while the invocation is in
flight, the backend emits `stopped` immediately and a second terminal
status when the killed invocation settles, so such an invocation observes
two terminal statuses. -/
theorem c1_terminal_status_per_invocation (code : Option Int) :
    ((droidRun droidInit
        [DroidAction.sendPromptStart, DroidAction.processClose code]).2.filter
        AStatus.isTerminal).length = 1
  ∧ ((droidRun droidInit
        [DroidAction.sendPromptStart, DroidAction.cancel,
         DroidAction.processClose code]).2.filter AStatus.isTerminal).length = 2 := by
  by_cases h : code = some 0 <;>
    simp [droidRun, droidStep, droidInit, h, AStatus.isTerminal]

/-- C2, counterexample: `OpencodeBackend.cancel` emits a `stopped` status
even when no invocation is in flight (here: no server session, not
running), and two consecutive idle cancels emit two `stopped` statuses
where a single cancel emits one — refuting "calling cancel() when no
invocation is in flight ... emits no status event" and the idempotence of
the observable effect for this variant. -/
theorem c2_opencode_idle_cancel_emits :
    (opencodeCancel ⟨none, false⟩).2.1 = [AStatus.stopped]
  ∧ ((opencodeCancel ⟨none, false⟩).2.1
      ++ (opencodeCancel (opencodeCancel ⟨none, false⟩).1).2.1
      = [AStatus.stopped, AStatus.stopped]) := by
  exact ⟨rfl, rfl⟩

/-- C2, amended: for the droid (process-exec) backend the claim holds:
`cancel()` with no live process is a no-op that changes no state and
emits nothing, and a second consecutive `cancel()` adds no further state
change or status event.  For the opencode (server-stream) backend,
`cancel()` unconditionally emits one `stopped` status and clears
`isRunning`, even when idle, so each additional call emits one more
status event. -/
theorem c2_cancel_idempotence :
    (∀ st : DroidBState, st.currentProcess = false →
        droidStep st DroidAction.cancel = (st, []))
  ∧ (∀ st : DroidBState,
        (droidStep (droidStep st DroidAction.cancel).1 DroidAction.cancel).1
          = (droidStep st DroidAction.cancel).1
        ∧ (droidStep st DroidAction.cancel).2
            ++ (droidStep (droidStep st DroidAction.cancel).1 DroidAction.cancel).2
          = (droidStep st DroidAction.cancel).2)
  ∧ (∀ st : OpencodeBState,
        (opencodeCancel st).2.1 = [AStatus.stopped]
        ∧ (opencodeCancel st).1.isRunning = false) := by
  refine ⟨?_, ?_, fun st => ⟨rfl, rfl⟩⟩
  · intro st h
    simp [droidStep, h]
  · intro st
    by_cases h : st.currentProcess <;> simp [droidStep, h]

/-- C2, witness for the amended theorem: the no-op clause at the initial
(idle) droid state. -/
theorem c2_cancel_idempotence_witness :
    droidStep ⟨false, false, false⟩ DroidAction.cancel
      = (⟨false, false, false⟩, []) :=
  c2_cancel_idempotence.1 ⟨false, false, false⟩ rfl

/-- C3: `emitReadyIfIdle` sends a ready announcement, and returns `true`,
exactly when the loop is not shutting down, not thinking, has no response
in progress, and the queue is empty; in particular it emits nothing and
returns `false` whenever the queue is non-empty or a response is still
streaming. -/
theorem c3_ready_gate (s t r : Bool) (q : Nat) :
    ((emitReadyIfIdle s t r q).2 = true
        ↔ (s = false ∧ t = false ∧ r = false ∧ q = 0))
  ∧ ((emitReadyIfIdle s t r q).1
      = if (emitReadyIfIdle s t r q).2 then [SessionEvent.ready] else [])
  ∧ (emitReadyIfIdle s t r (q + 1)).2 = false
  ∧ (emitReadyIfIdle s t r (q + 1)).1 = []
  ∧ (emitReadyIfIdle s t true q).2 = false
  ∧ (emitReadyIfIdle s t true q).1 = [] := by
  cases s <;> cases t <;> cases r <;> cases q <;> simp [emitReadyIfIdle]

/-- C5: on a terminal `error` status the driver resets the accumulated
partial response to empty and clears the in-progress flag, sends a
`turn_aborted` and an explicit `Error: ...` message (and nothing else —
in particular the partial text is never sent as a final `message`
payload), and a subsequent `idle`/`stopped` on the reset state forwards
nothing. -/
theorem c5_error_discards_partial (st : DriverState) (detail d2 : Option String) :
    handleStatus st AStatus.error detail
      = (⟨false, "", false⟩,
         [SessionOut.turnAborted,
          SessionOut.message ("Error: " ++ errDetailText detail)])
  ∧ (handleStatus ⟨false, "", false⟩ AStatus.idle d2).2 = []
  ∧ (handleStatus ⟨false, "", false⟩ AStatus.stopped d2).2 = [] := by
  refine ⟨rfl, ?_, ?_⟩ <;> simp [handleStatus]

/-- C6: a permission-request event is auto-resolved with an approval
(`respondToPermission` with `approved = true`) exactly when the current
permission mode is `yolo` or `safe-yolo`, is forwarded upstream exactly
for the `default` and `read-only` modes, and never both at once. -/
theorem c6_permission_dispatch (mode : PermissionMode) (id : String) :
    ((handlePermissionRequest mode id = PermAction.respondToPermission id true)
        ↔ (mode = PermissionMode.yolo ∨ mode = PermissionMode.safeYolo))
  ∧ ((handlePermissionRequest mode id = PermAction.forwardPermissionRequest id)
        ↔ (mode = PermissionMode.default ∨ mode = PermissionMode.readOnly))
  ∧ ¬(handlePermissionRequest mode id = PermAction.respondToPermission id true
        ∧ handlePermissionRequest mode id = PermAction.forwardPermissionRequest id) := by
  cases mode <;> simp [handlePermissionRequest]

/-- C7: the argument vector of a `sendPrompt` subprocess invocation is
exactly `exec`, `-o stream-json` (machine-readable streaming format),
the `--auto` segment only when an autonomy level is set (and
`permissionModeToAutoLevel` maps the most restrictive `default` mode to
`none`, so the flag is omitted for it), the `-s` segment exactly when a
droid session id is present, and always `-m` with the model (here the
backend default, as `sendPrompt` sets no explicit model) followed by the
prompt.  The argument vector never depends on the API key, which is
passed only through the child-process environment entry. -/
theorem c7_exec_args (apiKey defaultModel prompt : String)
    (auto : Option DroidAutoLevel) (sid : Option String) :
    (droidSendPromptSpawn apiKey defaultModel prompt auto sid).args
      = ["exec", "-o", "stream-json"]
        ++ (match auto with
            | some a => ["--auto", autoLevelString a]
            | none => [])
        ++ (match sid with
            | some s => ["-s", s]
            | none => [])
        ++ ["-m", defaultModel, prompt]
  ∧ permissionModeToAutoLevel PermissionMode.default = none
  ∧ (∀ (k2 : String) (o : DroidExecOptions),
        (execStreamSpawn apiKey defaultModel prompt o).args
          = (execStreamSpawn k2 defaultModel prompt o).args)
  ∧ (∀ o : DroidExecOptions,
        (execStreamSpawn apiKey defaultModel prompt o).extraEnv
          = [(factoryApiKeyEnv, apiKey)])
  ∧ (∀ o : DroidExecOptions,
        "-m" ∈ (execStreamSpawn apiKey defaultModel prompt o).args)
  ∧ (droidSendPromptSpawn apiKey defaultModel prompt auto sid).cmd = "droid" := by
  refine ⟨?_, rfl, fun k2 o => rfl, fun o => rfl, ?_, rfl⟩
  · cases auto <;> cases sid <;> rfl
  · intro o
    simp [execStreamSpawn, buildArgs]

/-- C8, counterexample: `getVersion` installs no timer of its own, so
when the spawned `droid --version` process never settles, the version
query never resolves — refuting "both ... resolve within a bounded
timeout", while `isAvailable` does resolve (`false`) at its 5000 ms
timeout on the same outcome. -/
theorem c8_getversion_no_timeout :
    getVersionRun [] ProcOutcome.neverSettles = none
  ∧ isAvailableRun ProcOutcome.neverSettles = (false, 5000) := by
  exact ⟨rfl, rfl⟩

/-- C8, amended: `isAvailable` always resolves by 5000 ms and fails
closed — it resolves `true` only for a clean exit code 0 that beats the
timeout, and `false` on spawn error, non-zero exit, or timeout.
`getVersion` fails closed to `null` on spawn error or non-zero exit and
never rejects, but imposes no timeout: it resolves only when the process
settles, and never resolves when it does not. -/
theorem c8_probe_fail_closed (stdout : List Char) (o : ProcOutcome) :
    (isAvailableRun o).2 ≤ 5000
  ∧ ((isAvailableRun o).1 = true →
        ∃ t, t < 5000 ∧ o = ProcOutcome.closes (some 0) t)
  ∧ (∀ t, getVersionRun stdout (ProcOutcome.spawnError t) = some (none, t))
  ∧ (∀ (c : Option Int) (t : Nat), c ≠ some 0 →
        getVersionRun stdout (ProcOutcome.closes c t) = some (none, t))
  ∧ getVersionRun stdout ProcOutcome.neverSettles = none := by
  refine ⟨?_, ?_, fun t => rfl, ?_, rfl⟩
  · cases o with
    | closes code t =>
        by_cases h : t < 5000
        · simp only [isAvailableRun, if_pos h]
          omega
        · simp [isAvailableRun, h]
    | spawnError t =>
        by_cases h : t < 5000
        · simp only [isAvailableRun, if_pos h]
          omega
        · simp [isAvailableRun, h]
    | neverSettles => simp [isAvailableRun]
  · cases o with
    | closes code t =>
        by_cases h : t < 5000
        · simp only [isAvailableRun, if_pos h]
          intro hc
          exact ⟨t, h, by rw [of_decide_eq_true hc]⟩
        · simp [isAvailableRun, h]
    | spawnError t => by_cases h : t < 5000 <;> simp [isAvailableRun, h]
    | neverSettles => simp [isAvailableRun]
  · intro c t hc
    simp [getVersionRun, hc]

/-- C8, witness for the amended theorem: a non-zero (null) exit code
resolves the version query to `null` at the close time. -/
theorem c8_probe_fail_closed_witness :
    getVersionRun [] (ProcOutcome.closes none 3) = some (none, 3) :=
  (c8_probe_fail_closed [] (ProcOutcome.closes none 3)).2.2.2.1 none 3 (by decide)

/-- C9: the emit loop catches and logs a throwing handler's exception,
still invokes every remaining handler on the same message, and never
propagates a handler exception to the caller: the loop always returns
normally with one log entry per handler (in handler order), and a handler
throwing in the middle of the list leaves every other handler's entry
intact. -/
theorem c9_emit_isolates_handlers (M : Type) (msg : M)
    (handlers : List (M → HOutcome Unit)) :
    emitHandlers msg handlers
      = HOutcome.ok (handlers.map fun h => caughtLog (h msg))
  ∧ (∀ (pre post : List (M → HOutcome Unit)) (h : M → HOutcome Unit) (e : String),
        h msg = HOutcome.thrown e →
        emitHandlers msg (pre ++ h :: post)
          = HOutcome.ok ((pre.map fun g => caughtLog (g msg))
              ++ some e :: (post.map fun g => caughtLog (g msg)))) := by
  refine ⟨emitHandlers_eq msg handlers, ?_⟩
  intro pre post h e hthrown
  rw [emitHandlers_eq]
  simp [List.map_append, hthrown, caughtLog]

/-- C9, witness: three handlers, the middle one throwing; all three are
invoked, the exception is logged for the middle one alone, and emit
returns normally. -/
theorem c9_emit_isolates_handlers_witness :
    emitHandlers (0 : Nat)
      [fun _ => HOutcome.ok (), fun _ => HOutcome.thrown "boom",
       fun _ => HOutcome.ok ()]
      = HOutcome.ok [none, some "boom", none] := by
  exact (c9_emit_isolates_handlers Nat 0 []).2
    [fun _ => HOutcome.ok ()] [fun _ => HOutcome.ok ()]
    (fun _ => HOutcome.thrown "boom") "boom" rfl

/-- C10: `parseModelString` returns a provider/model pair exactly when
the input splits on `'/'` into exactly two pieces — equivalently, when it
contains exactly one `'/'` — and returns null otherwise; and on every
such input `formatModelString` is a left inverse of `parseModelString`. -/
theorem c10_model_string_round_trip (s : List Char) :
    ((parseModelString s).isSome ↔ (splitOnSep '/' s).length = 2)
  ∧ ((splitOnSep '/' s).length = 2 ↔ s.count '/' = 1)
  ∧ (s.count '/' = 1 →
      ∃ m, parseModelString s = some m ∧ formatModelString m = s) := by
  refine ⟨?_, ?_, ?_⟩
  · by_cases h : (splitOnSep '/' s).length = 2 <;>
      simp [parseModelString, h]
  · rw [splitOnSep_length]
    omega
  · intro hcount
    have hlen : (splitOnSep '/' s).length = 2 := by
      rw [splitOnSep_length]
      omega
    obtain ⟨p, q, hpq⟩ : ∃ p q, splitOnSep '/' s = [p, q] := by
      cases hsp : splitOnSep '/' s with
      | nil => simp [hsp] at hlen
      | cons x xs =>
          cases xs with
          | nil => simp [hsp] at hlen
          | cons y ys =>
              cases ys with
              | nil => exact ⟨x, y, rfl⟩
              | cons z zs => simp [hsp] at hlen
    refine ⟨⟨p, q⟩, ?_, ?_⟩
    · simp [parseModelString, hpq]
    · have hjoin := joinSep_splitOnSep '/' s
      rw [hpq] at hjoin
      simpa [formatModelString, joinSep] using hjoin

/-- C4: the execStream stdout reader (i) is chunk-composable — feeding a
concatenation of two chunks produces the same state and the same events
as feeding them one after the other, so a trailing incomplete fragment is
buffered across reads; (ii) emits nothing from terminator-free input,
which only grows the buffer; (iii) skips a complete line that fails to
parse while still emitting the events of the surrounding lines; (iv) at
process close, an unparsable pending fragment is attempted once and
silently dropped — the settled result depends only on the exit code, so a
malformed trailing fragment never fails the invocation; and (v) a
parsable pending fragment is emitted at close. -/
theorem c4_stream_line_buffering :
    (∀ (α : Type) (parse : List Char → Option α)
        (fOf : α → Option (List Char)) (st : ExecStreamState)
        (d1 d2 : List Char),
        onStdoutData parse fOf st (d1 ++ d2)
          = ((onStdoutData parse fOf (onStdoutData parse fOf st d1).1 d2).1,
             (onStdoutData parse fOf st d1).2
               ++ (onStdoutData parse fOf (onStdoutData parse fOf st d1).1 d2).2))
  ∧ (∀ (α : Type) (parse : List Char → Option α)
        (fOf : α → Option (List Char)) (st : ExecStreamState)
        (data : List Char),
        '\n' ∉ st.buffer → '\n' ∉ data →
        onStdoutData parse fOf st data = (⟨st.buffer ++ data, st.finalText⟩, []))
  ∧ (∀ (α : Type) (parse : List Char → Option α)
        (fOf : α → Option (List Char)) (l1 l2 l3 : List Char) (e1 e3 : α),
        '\n' ∉ l1 → '\n' ∉ l2 → '\n' ∉ l3 →
        l1.all Char.isWhitespace = false → l3.all Char.isWhitespace = false →
        parse l1 = some e1 → parse l2 = none → parse l3 = some e3 →
        (onStdoutData parse fOf ⟨[], []⟩
            (l1 ++ '\n' :: (l2 ++ '\n' :: (l3 ++ ['\n'])))).2 = [e1, e3])
  ∧ (∀ (α : Type) (parse : List Char → Option α)
        (fOf : α → Option (List Char)) (st : ExecStreamState)
        (code : Option Int) (stderr : List Char),
        parse st.buffer = none →
        onProcessClose parse fOf st code stderr
          = ((if code = some 0 then Except.ok st.finalText
              else Except.error stderr), []))
  ∧ (∀ (α : Type) (parse : List Char → Option α)
        (fOf : α → Option (List Char)) (st : ExecStreamState)
        (code : Option Int) (stderr : List Char) (e : α),
        st.buffer.all Char.isWhitespace = false →
        parse st.buffer = some e →
        (onProcessClose parse fOf st code stderr).2 = [e]) := by
  refine ⟨?_, ?_, ?_, ?_, ?_⟩
  · intro α parse fOf st d1 d2
    have hCHL_ne :
        consHeadList ((splitOnSep '\n' (st.buffer ++ d1)).getLastD [])
            (splitOnSep '\n' d2) ≠ [] :=
      consHeadList_ne_nil _ _
    have hsplit_all : splitOnSep '\n' (st.buffer ++ (d1 ++ d2))
        = (splitOnSep '\n' (st.buffer ++ d1)).dropLast
          ++ consHeadList ((splitOnSep '\n' (st.buffer ++ d1)).getLastD [])
              (splitOnSep '\n' d2) := by
      rw [← List.append_assoc]
      exact splitOnSep_append '\n' (st.buffer ++ d1) d2
    have hsplit_2 : splitOnSep '\n'
          ((splitOnSep '\n' (st.buffer ++ d1)).getLastD [] ++ d2)
        = consHeadList ((splitOnSep '\n' (st.buffer ++ d1)).getLastD [])
            (splitOnSep '\n' d2) := by
      have h1 := splitOnSep_append '\n'
        ((splitOnSep '\n' (st.buffer ++ d1)).getLastD []) d2
      rw [splitOnSep_of_not_mem '\n' _
        (splitOnSep_getLastD_not_mem '\n' (st.buffer ++ d1))] at h1
      simpa using h1
    simp only [onStdoutData, hsplit_all, hsplit_2]
    rw [List.dropLast_append_of_ne_nil _ hCHL_ne, getLastD_append _ _ _ hCHL_ne]
    simp [lineEvents, updFinal, List.filterMap_append, List.foldl_append]
  · intro α parse fOf st data h1 h2
    have hnm : '\n' ∉ st.buffer ++ data := by
      simp [List.mem_append, h1, h2]
    simp [onStdoutData, splitOnSep_of_not_mem '\n' _ hnm, lineEvents, updFinal]
  · intro α parse fOf l1 l2 l3 e1 e3 h1 h2 h3 hw1 hw3 hp1 hp2 hp3
    have hsplit : splitOnSep '\n' (l1 ++ '\n' :: (l2 ++ '\n' :: (l3 ++ ['\n'])))
        = [l1, l2, l3, []] := by
      rw [splitOnSep_piece '\n' l1 _ h1, splitOnSep_piece '\n' l2 _ h2,
        show l3 ++ ['\n'] = l3 ++ '\n' :: [] from rfl,
        splitOnSep_piece '\n' l3 _ h3]
      rfl
    have g1 : (if l1.all Char.isWhitespace then none else parse l1) = some e1 := by
      rw [hw1, hp1]; rfl
    have g2 : (if l2.all Char.isWhitespace then none else parse l2) = none := by
      by_cases hall : l2.all Char.isWhitespace
      · simp [hall]
      · simp [hall, hp2]
    have g3 : (if l3.all Char.isWhitespace then none else parse l3) = some e3 := by
      rw [hw3, hp3]; rfl
    have hdrop : ([l1, l2, l3, []] : List (List Char)).dropLast = [l1, l2, l3] := rfl
    simp only [onStdoutData, List.nil_append, hsplit, hdrop, lineEvents,
      List.filterMap_cons, g1, g2, g3, List.filterMap_nil]
  · intro α parse fOf st code stderr hp
    simp [onProcessClose, hp, updFinal]
  · intro α parse fOf st code stderr e hw hp
    simp [onProcessClose, hw, hp]

/-- C4, witness: a three-line chunk whose middle line fails to parse
yields exactly the two surrounding events, and at close a pending
unparsable fragment is dropped with the invocation still succeeding. -/
theorem c4_stream_line_buffering_witness :
    (onStdoutData
        (fun l => if l = ['a'] then some (1 : Nat)
                  else if l = ['c'] then some 3 else none)
        (fun _ => none) ⟨[], []⟩
        (['a'] ++ '\n' :: (['b'] ++ '\n' :: (['c'] ++ ['\n'])))).2 = [1, 3]
  ∧ onProcessClose
        (fun l => if l = ['a'] then some (1 : Nat)
                  else if l = ['c'] then some 3 else none)
        (fun _ => none) ⟨['x'], ['f']⟩ (some 0) []
      = (Except.ok ['f'], []) := by
  constructor
  · exact c4_stream_line_buffering.2.2.1 Nat
      (fun l => if l = ['a'] then some (1 : Nat)
                else if l = ['c'] then some 3 else none)
      (fun _ => none) ['a'] ['b'] ['c'] 1 3
      (by decide) (by decide) (by decide) (by decide) (by decide)
      (by decide) (by decide) (by decide)
  · exact c4_stream_line_buffering.2.2.2.1 Nat
      (fun l => if l = ['a'] then some (1 : Nat)
                else if l = ['c'] then some 3 else none)
      (fun _ => none) ⟨['x'], ['f']⟩ (some 0) [] (by decide)

/-- C10, witness: the compound identifier `a/b` parses and round-trips. -/
theorem c10_model_string_round_trip_witness :
    (['a', '/', 'b'] : List Char).count '/' = 1
  ∧ ∃ m, parseModelString ['a', '/', 'b'] = some m
      ∧ formatModelString m = ['a', '/', 'b'] :=
  ⟨by decide, (c10_model_string_round_trip ['a', '/', 'b']).2.2 (by decide)⟩

end HappyCli

